import Mathlib

/-!
Verification of the client-side job queue / concurrency controller of the
batch image-transformation front end (src/App.tsx, src/types.ts,
src/services/geminiService.ts).

The task store, the scheduler loop, the worker retry loop and the lifecycle
operations are embedded as pure Lean functions over a `Task` record
mirroring the `ImageFile` interface.  Wall-clock waits, preview object-URL
resource handles and the remote transform call are abstracted: the remote
service is an oracle indexed by the attempt number, and time is an explicit
`Nat` parameter.  Scheduler-level claims are settled against a small-step
relation (`Step` / `Reachable`) over the whole system state, following the
single-threaded event-processing model the design assumes: every store
mutation (a `setFiles` functional update) is one atomic step, and logically
concurrent workers are snapshots waiting for their write-back step.
-/

namespace ImageQueue

/-- The `ProcessingStatus` enumeration from src/types.ts. -/
inductive Status where
  | idle
  | pending
  | processing
  | completed
  | failed
deriving DecidableEq, Repr

/-- An input image handle: the file name plus opaque byte contents (`File`
objects in the source; preview object URLs carry no queue semantics and are
not modelled). -/
structure FileHandle where
  name : String
  bytes : String
deriving DecidableEq, Repr

/-- The `ImageFile` task record of src/types.ts.  `id` is a `Nat` standing
for the UUID string; `previewUrl`, `secondaryPreviewUrl` and the legacy
`retryTimestamp` field are omitted (display-only resource handles). -/
structure Task where
  id : Nat
  file : FileHandle
  secondaryFile : Option FileHandle
  status : Status
  resultUrl : Option String
  resultBlob : Option String
  error : Option String
  customPrompt : Option String
  isRetry : Bool
  lastActivityTimestamp : Nat
deriving DecidableEq, Repr

/-- The `prev.map(f => f.id === id ? upd(f) : f)` store idiom used by every
keyed write in src/App.tsx. -/
def updateById (i : Nat) (g : Task → Task) (ts : List Task) : List Task :=
  ts.map fun f => if f.id = i then g f else f

/-- Marking the dispatched task `PROCESSING` (src/App.tsx line 338). -/
def markProcessing (i : Nat) (ts : List Task) : List Task :=
  updateById i (fun f => { f with status := .processing, error := none }) ts

/-- Successful worker write-back (line 294): the whole record is replaced by
the updated record built from the dispatch-time snapshot. -/
def writeBackSuccess (u : Task) (ts : List Task) : List Task :=
  updateById u.id (fun _ => u) ts

/-- Failure write-back (lines 296-300): status `FAILED` plus the error
message; the `{...f, ...}` spread leaves the result fields as they are. -/
def writeBackFailure (i : Nat) (msg : String) (ts : List Task) : List Task :=
  updateById i (fun f => { f with status := .failed, error := some msg }) ts

/-- The bulk transition of `startProcessing` (lines 365-369): `IDLE` and `FAILED`
records become `PENDING` with the error cleared. -/
def startMarkPending (ts : List Task) : List Task :=
  ts.map fun f =>
    if f.status = .idle ∨ f.status = .failed then
      { f with status := .pending, error := none }
    else f

/-- The `handleRegenerate` operation (lines 374-394): reset the existing record in place to
`PENDING`, clear result and error, set the retry flag and bump the activity
timestamp to the current time. -/
def handleRegenerate (i : Nat) (now : Nat) (ts : List Task) : List Task :=
  updateById i (fun f =>
    { f with status := .pending, resultUrl := none, resultBlob := none,
             error := none, isRetry := true, lastActivityTimestamp := now }) ts

/-- The `handleRemove` operation (lines 200-210); revoking object URLs is not modelled. -/
def handleRemove (i : Nat) (ts : List Task) : List Task :=
  ts.filter fun f => decide (f.id ≠ i)

/-- The `handleSavePrompt` operation (lines 217-226). -/
def handleSavePrompt (i : Nat) (p : String) (ts : List Task) : List Task :=
  updateById i (fun f => { f with customPrompt := some p }) ts

/-- The clone built by `handleUseResultAsInput` (lines 397-417) from a
source task whose result blob bytes are `b`. -/
def cloneTask (item : Task) (newId now : Nat) (b : String) : Task :=
  { id := newId,
    file := { name := "regen_" ++ toString now ++ "_" ++ item.file.name, bytes := b },
    secondaryFile := none,
    status := .idle,
    resultUrl := none, resultBlob := none, error := none,
    customPrompt := item.customPrompt,
    isRetry := false,
    lastActivityTimestamp := now }

/-- The `handleUseResultAsInput` operation: returns the store unchanged when the source
has no result blob (`if (!item.resultBlob) return`), otherwise appends the
clone at the end. -/
def handleUseResultAsInput (item : Task) (newId now : Nat) (ts : List Task) : List Task :=
  match item.resultBlob with
  | none => ts
  | some b => ts ++ [cloneTask item newId now b]

/-- Stable insertion into a descending-by-timestamp list: the inserted
element goes in front of every element whose timestamp is not larger,
so an element originally earlier in the array stays in front of later
elements with an equal key. -/
def insertByTs (t : Task) : List Task → List Task
  | [] => [t]
  | u :: us =>
    if u.lastActivityTimestamp ≤ t.lastActivityTimestamp then t :: u :: us
    else u :: insertByTs t us

/-- Stable sort by descending `lastActivityTimestamp`. -/
def sortByTsDesc : List Task → List Task
  | [] => []
  | t :: ts => insertByTs t (sortByTsDesc ts)

/-- The candidate list of the scheduler (lines 314-319): `PENDING` tasks sorted
by descending `lastActivityTimestamp`.  JS `Array.prototype.sort` is
specified as a stable sort by the comparator, here
`(a, b) => b.lastActivityTimestamp - a.lastActivityTimestamp`; it is
modelled by a stable insertion sort under the matching total order. -/
def pendingSorted (ts : List Task) : List Task :=
  sortByTsDesc (ts.filter fun f => decide (f.status = .pending))

/-- Count of records currently `PROCESSING` (line 322). -/
def processingCount (ts : List Task) : Nat :=
  (ts.filter fun f => decide (f.status = .processing)).length

/-- The configuration surface the scheduler reads (the other configured
options are threaded to the worker directly). -/
structure Config where
  enableConcurrency : Bool
  maxConcurrency : Nat
deriving DecidableEq, Repr

/-- The `MAX_CONCURRENCY` value (lines 330-332): 1 when concurrent generation is
disabled, else the configured limit. -/
def ceiling (cfg : Config) : Nat :=
  if cfg.enableConcurrency then cfg.maxConcurrency else 1

/-- The extension strip `fileItem.file.name.replace(/\.[^/.]+$/, "")` of line 244: strip one
trailing `.<segment>` where the non-empty segment contains neither `.` nor
`/`. -/
def stripExtension (s : String) : String :=
  let rev := s.data.reverse
  let seg := rev.takeWhile fun c => c != '.' && c != '/'
  match rev.dropWhile (fun c => c != '.' && c != '/') with
  | '.' :: rest => if seg.isEmpty then s else ⟨rest.reverse⟩
  | _ => s

/-- The backquote character, U+0060, written by code point. -/
def backquoteChar : Char := Char.ofNat 96

/-- The quote character, U+0027, written by code point. -/
def quoteChar : Char := Char.ofNat 39

/-- The ECMAScript GetSubstitution processing of a replacement string, as
`String.prototype.replace` applies it even for a plain string pattern (no
capture groups): `$$` yields a dollar sign, `$&` yields the matched text,
a dollar sign followed by the backquote yields the portion of the subject
before the match, a dollar sign followed by the quote yields the portion
after it, and every other dollar sequence (including `$1`..`$9`, which
have no capture to refer to) is left as it stands. -/
def getSubstitution (matched before after : List Char) : List Char → List Char
  | [] => []
  | [c] => [c]
  | c :: d :: rest =>
    if c = '$' then
      if d = '$' then '$' :: getSubstitution matched before after rest
      else if d = '&' then matched ++ getSubstitution matched before after rest
      else if d = backquoteChar then before ++ getSubstitution matched before after rest
      else if d = quoteChar then after ++ getSubstitution matched before after rest
      else c :: getSubstitution matched before after (d :: rest)
    else c :: getSubstitution matched before after (d :: rest)

/-- First-occurrence replacement on character lists with the JS
substitution rules; `revBefore` accumulates (reversed) the subject prefix
already scanned, which is the before-portion GetSubstitution needs. -/
def replaceFirstAux (pat rep : List Char) (revBefore : List Char) :
    List Char → List Char
  | [] => revBefore.reverse
  | c :: cs =>
    if pat.isPrefixOf (c :: cs) then
      revBefore.reverse ++
        getSubstitution pat revBefore.reverse ((c :: cs).drop pat.length) rep ++
        (c :: cs).drop pat.length
    else replaceFirstAux pat rep (c :: revBefore) cs

/-- The semantics of the JS replace call of line 245, `template.replace`
with the `{filename}` string literal as pattern: replace the first
occurrence only, processing the ECMAScript GetSubstitution dollar
sequences of the replacement string (an empty pattern matches at
position 0). -/
def replaceFirst (s pat rep : String) : String :=
  if pat.data.isEmpty then ⟨getSubstitution [] [] s.data rep.data ++ s.data⟩
  else ⟨replaceFirstAux pat.data rep.data [] s.data⟩

/-- Plain first-occurrence substitution on character lists: the reading of
the claim wording, under which the placeholder is replaced by the stripped
file name itself, with no dollar-sequence processing. -/
def literalReplaceFirstAux (pat rep : List Char) : List Char → List Char
  | [] => []
  | c :: cs =>
    if pat.isPrefixOf (c :: cs) then rep ++ (c :: cs).drop pat.length
    else c :: literalReplaceFirstAux pat rep cs

/-- Plain first-occurrence substitution, the claim-side counterpart of
`replaceFirst` used to compare the program against the claim wording. -/
def literalReplaceFirst (s pat rep : String) : String :=
  if pat.data.isEmpty then ⟨rep.data ++ s.data⟩
  else ⟨literalReplaceFirstAux pat.data rep.data s.data⟩

/-- The effective prompt computed at lines 239-246: the own
`customPrompt` of the task when it is set and non-empty (JS truthiness of
`fileItem.customPrompt`), otherwise the global template with the first
`{filename}` occurrence replaced by the source file name without its
extension. -/
def finalPromptOf (template : String) (item : Task) : String :=
  match item.customPrompt with
  | some p =>
    if p = "" then replaceFirst template "{filename}" (stripExtension item.file.name)
    else p
  | none => replaceFirst template "{filename}" (stripExtension item.file.name)

/-- The effective prompt as the claim words it: the override when set and
non-empty, otherwise the template with the placeholder plainly substituted
by the extension-stripped file name. -/
def specEffectivePrompt (template : String) (item : Task) : String :=
  match item.customPrompt with
  | some p =>
    if p = "" then literalReplaceFirst template "{filename}" (stripExtension item.file.name)
    else p
  | none => literalReplaceFirst template "{filename}" (stripExtension item.file.name)

/-- The record a successful worker run produces from its dispatch-time
snapshot (lines 269-275): status `COMPLETED`, both result forms stored, the
error cleared, every other field from the snapshot. -/
def successRecord (snap : Task) (url blob : String) : Task :=
  { snap with status := .completed, resultUrl := some url,
              resultBlob := some blob, error := none }

/-- The transform-service oracle: given the 1-based attempt number, the
input files and the effective prompt, either the produced image (the result
URL string and the blob bytes, the two forms the worker stores) or a thrown
error message.  Indexing by attempt number models the per-call behaviour of
the flaky remote service; the temperature and the credential string
influence no claim and are suppressed. -/
abbrev Service := Nat → List FileHandle → String → Except String (String × String)

/-- The `filesToProcess` input set (lines 253-256): the primary file plus the secondary
file of a paired task. -/
def filesToProcess (item : Task) : List FileHandle :=
  item.file :: (match item.secondaryFile with | some s => [s] | none => [])

/-- The retry loop of `processSingleFile` (lines 258-286).  `fuel` is
`maxAttempts - attempts`; the second component of the pair is the final
value of the `attempts` counter of the source, i.e. the number of service invocations.
`stop` is `abortControllerRef.current`, held constant over the run; the
1.5 s backoff sleep has no semantic effect beyond time and is not modelled.
After the loop the source throws `lastError || new Error("Processing
failed")`. -/
def attemptLoop (svc : Service) (fs : List FileHandle) (prompt : String)
    (stop : Bool) (item : Task) :
    Nat → Nat → Option String → Except String Task × Nat
  | 0, attempts, lastError => (.error (lastError.getD "Processing failed"), attempts)
  | fuel + 1, attempts, lastError =>
    if stop then (.error (lastError.getD "Processing failed"), attempts)
    else
      match svc (attempts + 1) fs prompt with
      | .ok (url, blob) => (.ok (successRecord item url blob), attempts + 1)
      | .error e => attemptLoop svc fs prompt stop item fuel (attempts + 1) (some e)

/-- The worker `processSingleFile` (lines 229-287).  A missing credential is
`apiKey = none` or the empty string (JS falsiness of `currentApiKey`),
thrown before any attempt.  Returns the outcome together with the final
attempts count. -/
def processSingleFile (item : Task) (apiKey : Option String) (autoRetry : Bool)
    (template : String) (stop : Bool) (svc : Service) : Except String Task × Nat :=
  if apiKey.getD "" = "" then (.error "API Key is missing", 0)
  else
    let finalPrompt := finalPromptOf template item
    let maxAttempts := if autoRetry then 3 else 1
    attemptLoop svc (filesToProcess item) finalPrompt stop item maxAttempts 0 none

/-- The wrapper `processFileBackground` (lines 290-302): the wrapper that converts every
worker outcome into a store write-back; a falsy error message becomes
`"Unknown error"` (`error.message || "Unknown error"`). -/
def processFileBackground (item : Task) (apiKey : Option String) (autoRetry : Bool)
    (template : String) (stop : Bool) (svc : Service) (ts : List Task) : List Task :=
  match (processSingleFile item apiKey autoRetry template stop svc).1 with
  | .ok updated => writeBackSuccess updated ts
  | .error msg => writeBackFailure item.id (if msg = "" then "Unknown error" else msg) ts

/-- Global system state: the task store (`files`), the dispatch-time
snapshots of workers still in flight (spawned `processFileBackground` calls
whose write-back has not landed yet) and `abortControllerRef.current`. -/
structure SysState where
  tasks : List Task
  workers : List Task
  stopFlag : Bool
deriving DecidableEq, Repr

/-- The initial state: no tasks, no workers, stop flag clear. -/
def initState : SysState := { tasks := [], workers := [], stopFlag := false }

/-- The atomic events of the interleaved model. -/
inductive Event where
  | enqueue (t : Task)
  | start
  | dispatch
  | workerSucceed (i : Nat) (url blob : String)
  | workerFail (i : Nat) (msg : String)
  | regenerate (i : Nat) (now : Nat)
  | clone (src : Task) (newId now : Nat)
  | savePrompt (i : Nat) (p : String)
  | remove (i : Nat)
  | stopReq
  | queueEnter
deriving DecidableEq, Repr

/-- One interleaved step of the single-threaded event-processing model:
scheduler-loop iterations, worker resolutions and lifecycle operations
mutate the store atomically.  `enqueue`/`clone` freshness mirrors
`crypto.randomUUID()`: a new id collides with no identifier live in the
system.  A dispatch requires the stop flag clear (checked at the top of
every loop iteration), selects the head of the recency-sorted pending list
and requires strictly fewer `PROCESSING` records than the ceiling (line
334); worker resolutions carry no stop-flag guard (an in-flight call is
never forcibly aborted).  `stopReq` is `stopProcessing` (lines 419-421) and
`queueEnter` is the flag reset at `processQueue` entry (line 309). -/
inductive Step (cfg : Config) : SysState → Event → SysState → Prop where
  | enqueue (s : SysState) (t : Task)
      (hid : t.id ∉ s.tasks.map Task.id) (hwid : t.id ∉ s.workers.map Task.id)
      (hst : t.status = .idle) (hres : t.resultUrl = none)
      (hblob : t.resultBlob = none) (herr : t.error = none)
      (hretry : t.isRetry = false) :
      Step cfg s (.enqueue t) { s with tasks := s.tasks ++ [t] }
  | start (s : SysState) :
      Step cfg s .start { s with tasks := startMarkPending s.tasks }
  | dispatch (s : SysState) (t : Task)
      (hstop : s.stopFlag = false)
      (hsel : (pendingSorted s.tasks).head? = some t)
      (hcap : processingCount s.tasks < ceiling cfg) :
      Step cfg s .dispatch
        { s with tasks := markProcessing t.id s.tasks, workers := s.workers ++ [t] }
  | workerSucceed (s : SysState) (snap : Task) (url blob : String)
      (hw : snap ∈ s.workers) :
      Step cfg s (.workerSucceed snap.id url blob)
        { s with tasks := writeBackSuccess (successRecord snap url blob) s.tasks,
                 workers := s.workers.erase snap }
  | workerFail (s : SysState) (snap : Task) (msg : String)
      (hw : snap ∈ s.workers) :
      Step cfg s (.workerFail snap.id msg)
        { s with tasks := writeBackFailure snap.id msg s.tasks,
                 workers := s.workers.erase snap }
  | regenerate (s : SysState) (i now : Nat) :
      Step cfg s (.regenerate i now) { s with tasks := handleRegenerate i now s.tasks }
  | clone (s : SysState) (src : Task) (newId now : Nat)
      (hsrc : src ∈ s.tasks)
      (hid : newId ∉ s.tasks.map Task.id) (hwid : newId ∉ s.workers.map Task.id) :
      Step cfg s (.clone src newId now)
        { s with tasks := handleUseResultAsInput src newId now s.tasks }
  | savePrompt (s : SysState) (i : Nat) (p : String) :
      Step cfg s (.savePrompt i p) { s with tasks := handleSavePrompt i p s.tasks }
  | remove (s : SysState) (i : Nat) :
      Step cfg s (.remove i) { s with tasks := handleRemove i s.tasks }
  | stopReq (s : SysState) :
      Step cfg s .stopReq { s with stopFlag := true }
  | queueEnter (s : SysState) :
      Step cfg s .queueEnter { s with stopFlag := false }

/-- States reachable from the empty initial state. -/
inductive Reachable (cfg : Config) : SysState → Prop where
  | init : Reachable cfg initState
  | step {s : SysState} {e : Event} {s' : SysState} :
      Reachable cfg s → Step cfg s e s' → Reachable cfg s'

/-- The event is not a regenerate of a task that still has a worker in
flight (the interleaving that double-dispatches an id). -/
def SafeEvent (s : SysState) : Event → Prop
  | .regenerate i _ => ∀ w ∈ s.workers, w.id ≠ i
  | _ => True

/-- States reachable along runs that never regenerate a task while its
worker is still in flight. -/
inductive ReachableSafe (cfg : Config) : SysState → Prop where
  | init : ReachableSafe cfg initState
  | step {s : SysState} {e : Event} {s' : SysState} :
      ReachableSafe cfg s → Step cfg s e s' → SafeEvent s e → ReachableSafe cfg s'

/-- Inductive invariant for the ceiling bound: task ids are distinct
(`crypto.randomUUID()`), and the number of `PROCESSING` records never
exceeds the effective ceiling. -/
def CountInv (cfg : Config) (s : SysState) : Prop :=
  (s.tasks.map Task.id).Nodup ∧ processingCount s.tasks ≤ ceiling cfg

/-- The field discipline of the data-model invariant: a `COMPLETED` record
holds both result forms and no error, a `FAILED` record holds an error and
no result, any other record holds neither. -/
def fieldsOk (t : Task) : Prop :=
  match t.status with
  | .completed => t.resultUrl.isSome ∧ t.resultBlob.isSome ∧ t.error = none
  | .failed => t.error.isSome ∧ t.resultUrl = none ∧ t.resultBlob = none
  | _ => t.resultUrl = none ∧ t.resultBlob = none ∧ t.error = none

/-- Inductive invariant on runs without regenerate-while-in-flight: task
ids are distinct, in-flight worker ids are distinct, every record satisfies
the field discipline, and the record of an in-flight worker (when still present)
has status `PROCESSING`. -/
def StoreInv (s : SysState) : Prop :=
  (s.tasks.map Task.id).Nodup ∧
  (s.workers.map Task.id).Nodup ∧
  (∀ t ∈ s.tasks, fieldsOk t) ∧
  (∀ w ∈ s.workers, ∀ t ∈ s.tasks, t.id = w.id → t.status = .processing)

/-! ### Demonstration data for witnesses and counterexamples -/

/-- A `PENDING` demo task with a chosen id and activity timestamp. -/
def demoTask (i ts : Nat) : Task :=
  { id := i, file := { name := "img" ++ toString i ++ ".png", bytes := "x" },
    secondaryFile := none, status := .pending, resultUrl := none,
    resultBlob := none, error := none, customPrompt := none, isRetry := false,
    lastActivityTimestamp := ts }

def demoT5 : Task := demoTask 0 5

def demoT1 : Task := demoTask 1 1

def demoT9 : Task := demoTask 2 9

def demoCfg : Config := { enableConcurrency := true, maxConcurrency := 2 }

def demoCfgSerial : Config := { enableConcurrency := false, maxConcurrency := 7 }

def demoState : SysState :=
  { tasks := [demoT5, demoT1, demoT9], workers := [], stopFlag := false }

def demoIdle : Task :=
  { id := 3, file := { name := "b.png", bytes := "bb" }, secondaryFile := none,
    status := .idle, resultUrl := none, resultBlob := none, error := none,
    customPrompt := none, isRetry := false, lastActivityTimestamp := 2 }

def demoIdleP : Task := { demoIdle with status := .pending }

def demoDone : Task :=
  { id := 4, file := { name := "c.png", bytes := "cc" }, secondaryFile := none,
    status := .completed, resultUrl := some "r", resultBlob := some "rb",
    error := none, customPrompt := some "override", isRetry := false,
    lastActivityTimestamp := 3 }

/-- A task whose file name contains the JS substitution sequence made of a
dollar sign and an ampersand; stripping the extension leaves that sequence
in the replacement string handed to the replace call. -/
def dollarTask : Task :=
  { id := 5, file := { name := "a$&b.png", bytes := "dd" }, secondaryFile := none,
    status := .idle, resultUrl := none, resultBlob := none, error := none,
    customPrompt := none, isRetry := false, lastActivityTimestamp := 4 }

/-- The regenerated snapshot of the counterexample run: the task was
regenerated while its first worker was still in flight. -/
def ceRegen : Task :=
  { id := 0, file := { name := "a.png", bytes := "ab" }, secondaryFile := none,
    status := .pending, resultUrl := none, resultBlob := none, error := none,
    customPrompt := none, isRetry := true, lastActivityTimestamp := 5 }

/-- The record the counterexample run ends with: status `FAILED` while both
result fields are still populated from the stale success write-back. -/
def ceFinal : Task :=
  { id := 0, file := { name := "a.png", bytes := "ab" }, secondaryFile := none,
    status := .failed, resultUrl := some "u", resultBlob := some "b",
    error := some "boom", customPrompt := none, isRetry := false,
    lastActivityTimestamp := 1 }

/-! ### Helper lemmas about the store operations -/

theorem mem_updateById {i : Nat} {g : Task → Task} {ts : List Task} {u : Task}
    (h : u ∈ updateById i g ts) :
    ∃ t ∈ ts, (t.id = i ∧ u = g t) ∨ (t.id ≠ i ∧ u = t) := by
  rcases List.mem_map.mp h with ⟨t, ht, he⟩
  refine ⟨t, ht, ?_⟩
  by_cases hid : t.id = i
  · exact Or.inl ⟨hid, by simp [hid] at he; exact he.symm⟩
  · exact Or.inr ⟨hid, by simp [hid] at he; exact he.symm⟩

theorem mem_updateById_of_ne {i : Nat} {g : Task → Task} {ts : List Task} {t : Task}
    (ht : t ∈ ts) (hid : t.id ≠ i) : t ∈ updateById i g ts := by
  have h1 := List.mem_map_of_mem (fun f => if f.id = i then g f else f) ht
  rw [show (fun f => if f.id = i then g f else f) t = t by simp [hid]] at h1
  exact h1

theorem mem_updateById_of_eq {i : Nat} {g : Task → Task} {ts : List Task} {t : Task}
    (ht : t ∈ ts) (hid : t.id = i) : g t ∈ updateById i g ts := by
  have h1 := List.mem_map_of_mem (fun f => if f.id = i then g f else f) ht
  rw [show (fun f => if f.id = i then g f else f) t = g t by simp [hid]] at h1
  exact h1

theorem updateById_noop {i : Nat} {g : Task → Task} {ts : List Task}
    (h : ∀ t ∈ ts, t.id ≠ i) : updateById i g ts = ts := by
  induction ts with
  | nil => rfl
  | cons t ts ih =>
    have ht : t.id ≠ i := h t (List.mem_cons_self t ts)
    simp [updateById, ht] at ih ⊢
    exact ih fun u hu => h u (List.mem_cons_of_mem t hu)

theorem map_id_map (f : Task → Task) (h : ∀ t, (f t).id = t.id) (ts : List Task) :
    (ts.map f).map Task.id = ts.map Task.id := by
  induction ts with
  | nil => rfl
  | cons t ts ih => simp [h t, ih]

theorem updateById_map_id (i : Nat) (g : Task → Task)
    (h : ∀ t, t.id = i → (g t).id = t.id) (ts : List Task) :
    (updateById i g ts).map Task.id = ts.map Task.id := by
  refine map_id_map _ (fun t => ?_) ts
  by_cases hid : t.id = i
  · simp [hid, h t hid]
  · simp [hid]

theorem markProcessing_map_id (i : Nat) (ts : List Task) :
    (markProcessing i ts).map Task.id = ts.map Task.id :=
  updateById_map_id i (fun f => { f with status := .processing, error := none })
    (fun _ _ => rfl) ts

theorem writeBackSuccess_map_id (u : Task) (ts : List Task) :
    (writeBackSuccess u ts).map Task.id = ts.map Task.id :=
  updateById_map_id u.id _ (fun _ ht => ht.symm) ts

theorem writeBackFailure_map_id (i : Nat) (msg : String) (ts : List Task) :
    (writeBackFailure i msg ts).map Task.id = ts.map Task.id :=
  updateById_map_id i (fun f => { f with status := .failed, error := some msg })
    (fun _ _ => rfl) ts

theorem handleRegenerate_map_id (i now : Nat) (ts : List Task) :
    (handleRegenerate i now ts).map Task.id = ts.map Task.id :=
  updateById_map_id i
    (fun f => { f with status := .pending, resultUrl := none, resultBlob := none,
                       error := none, isRetry := true, lastActivityTimestamp := now })
    (fun _ _ => rfl) ts

theorem handleSavePrompt_map_id (i : Nat) (p : String) (ts : List Task) :
    (handleSavePrompt i p ts).map Task.id = ts.map Task.id :=
  updateById_map_id i (fun f => { f with customPrompt := some p })
    (fun _ _ => rfl) ts

theorem startMarkPending_map_id (ts : List Task) :
    (startMarkPending ts).map Task.id = ts.map Task.id := by
  refine map_id_map _ (fun t => ?_) ts
  by_cases h : t.status = .idle ∨ t.status = .failed <;> simp [h]

theorem processingCount_cons (t : Task) (ts : List Task) :
    processingCount (t :: ts) =
      (if t.status = .processing then 1 else 0) + processingCount ts := by
  by_cases h : t.status = .processing <;>
    simp [processingCount, List.filter_cons, h, Nat.add_comm]

theorem processingCount_map_le (f : Task → Task)
    (h : ∀ t, (f t).status = .processing → t.status = .processing) (ts : List Task) :
    processingCount (ts.map f) ≤ processingCount ts := by
  induction ts with
  | nil => exact Nat.le_refl _
  | cons t ts ih =>
    rw [List.map_cons, processingCount_cons, processingCount_cons]
    by_cases hf : (f t).status = .processing
    · simp [hf, h t hf]; omega
    · simp [hf]; split <;> omega

theorem processingCount_append_idle (ts : List Task) (t : Task)
    (h : t.status ≠ .processing) :
    processingCount (ts ++ [t]) = processingCount ts := by
  simp [processingCount, List.filter_append, List.filter_cons, h]

theorem processingCount_filter_le (q : Task → Bool) (ts : List Task) :
    processingCount (ts.filter q) ≤ processingCount ts :=
  List.Sublist.length_le (List.Sublist.filter _ (List.filter_sublist ts))

theorem updateById_noop_of_not_mem {i : Nat} {g : Task → Task} {ts : List Task}
    (h : i ∉ ts.map Task.id) : updateById i g ts = ts :=
  updateById_noop fun _ ht he => h (he ▸ List.mem_map_of_mem Task.id ht)

theorem processingCount_markProcessing_le (i : Nat) (ts : List Task)
    (h : (ts.map Task.id).Nodup) :
    processingCount (markProcessing i ts) ≤ processingCount ts + 1 := by
  induction ts with
  | nil => simp [markProcessing, updateById, processingCount]
  | cons t ts ih =>
    rw [List.map_cons, List.nodup_cons] at h
    by_cases hid : t.id = i
    · have : markProcessing i ts = ts :=
        updateById_noop_of_not_mem (hid ▸ h.1)
      rw [show markProcessing i (t :: ts) =
            { t with status := .processing, error := none } :: markProcessing i ts by
          simp [markProcessing, updateById, hid]]
      rw [this, processingCount_cons, processingCount_cons]
      split <;> simp <;> omega
    · rw [show markProcessing i (t :: ts) = t :: markProcessing i ts by
          simp [markProcessing, updateById, hid]]
      rw [processingCount_cons, processingCount_cons]
      have := ih h.2
      omega


theorem handleUseResultAsInput_none {item : Task} (h : item.resultBlob = none)
    (newId now : Nat) (ts : List Task) :
    handleUseResultAsInput item newId now ts = ts := by
  simp [handleUseResultAsInput, h]

theorem handleUseResultAsInput_some {item : Task} {b : String}
    (h : item.resultBlob = some b) (newId now : Nat) (ts : List Task) :
    handleUseResultAsInput item newId now ts = ts ++ [cloneTask item newId now b] := by
  simp [handleUseResultAsInput, h]

/-! ### The concurrency-ceiling invariant (C2) -/

theorem countInv_step {cfg : Config} {s : SysState} {e : Event} {s' : SysState}
    (hs : Step cfg s e s') (ih : CountInv cfg s) : CountInv cfg s' := by
  obtain ⟨hnd, hcnt⟩ := ih
  cases hs with
  | enqueue t hid hwid hst hres hblob herr hretry =>
    refine ⟨?_, ?_⟩
    · have hfun : ∀ x ∈ s.tasks, ¬x.id = t.id :=
        fun x hx he => hid (he ▸ List.mem_map_of_mem Task.id hx)
      simpa [List.nodup_append] using ⟨hnd, hfun⟩
    · show processingCount (s.tasks ++ [t]) ≤ ceiling cfg
      rw [processingCount_append_idle s.tasks t (by simp [hst])]
      exact hcnt
  | start =>
    refine ⟨by simpa [startMarkPending_map_id] using hnd, ?_⟩
    show processingCount (startMarkPending s.tasks) ≤ ceiling cfg
    unfold startMarkPending
    refine le_trans (processingCount_map_le _ (fun t ht => ?_) s.tasks) hcnt
    by_cases hc : t.status = .idle ∨ t.status = .failed
    · simp [hc] at ht
    · simpa [hc] using ht
  | dispatch t hstop hsel hcap =>
    refine ⟨by simpa [markProcessing_map_id] using hnd, ?_⟩
    show processingCount (markProcessing t.id s.tasks) ≤ ceiling cfg
    have := processingCount_markProcessing_le t.id s.tasks hnd
    omega
  | workerSucceed snap url blob hw =>
    refine ⟨by simpa [writeBackSuccess_map_id] using hnd, ?_⟩
    show processingCount (writeBackSuccess (successRecord snap url blob) s.tasks)
      ≤ ceiling cfg
    unfold writeBackSuccess updateById
    refine le_trans (processingCount_map_le _ (fun t ht => ?_) s.tasks) hcnt
    by_cases hc : t.id = (successRecord snap url blob).id
    · simp [hc, successRecord] at ht
    · simpa [hc] using ht
  | workerFail snap msg hw =>
    refine ⟨by simpa [writeBackFailure_map_id] using hnd, ?_⟩
    show processingCount (writeBackFailure snap.id msg s.tasks) ≤ ceiling cfg
    unfold writeBackFailure updateById
    refine le_trans (processingCount_map_le _ (fun t ht => ?_) s.tasks) hcnt
    by_cases hc : t.id = snap.id
    · simp [hc] at ht
    · simpa [hc] using ht
  | regenerate i now =>
    refine ⟨by simpa [handleRegenerate_map_id] using hnd, ?_⟩
    show processingCount (handleRegenerate i now s.tasks) ≤ ceiling cfg
    unfold handleRegenerate updateById
    refine le_trans (processingCount_map_le _ (fun t ht => ?_) s.tasks) hcnt
    by_cases hc : t.id = i
    · simp [hc] at ht
    · simpa [hc] using ht
  | clone src newId now hsrc hid hwid =>
    rcases hb : src.resultBlob with _ | b
    · rw [show ({ s with tasks := handleUseResultAsInput src newId now s.tasks } : SysState)
          = { s with tasks := s.tasks } from by
        rw [handleUseResultAsInput_none hb]]
      exact ⟨hnd, hcnt⟩
    · constructor
      · show ((handleUseResultAsInput src newId now s.tasks).map Task.id).Nodup
        rw [handleUseResultAsInput_some hb]
        have hfun : ∀ x ∈ s.tasks, ¬x.id = newId :=
          fun x hx he => hid (he ▸ List.mem_map_of_mem Task.id hx)
        simpa [List.nodup_append, cloneTask] using ⟨hnd, hfun⟩
      · show processingCount (handleUseResultAsInput src newId now s.tasks) ≤ ceiling cfg
        rw [handleUseResultAsInput_some hb]
        rw [processingCount_append_idle s.tasks _ (by simp [cloneTask])]
        exact hcnt
  | savePrompt i p =>
    refine ⟨by simpa [handleSavePrompt_map_id] using hnd, ?_⟩
    show processingCount (handleSavePrompt i p s.tasks) ≤ ceiling cfg
    unfold handleSavePrompt updateById
    refine le_trans (processingCount_map_le _ (fun t ht => ?_) s.tasks) hcnt
    by_cases hc : t.id = i
    · simpa [hc] using ht
    · simpa [hc] using ht
  | remove i =>
    refine ⟨?_, le_trans (processingCount_filter_le _ _) hcnt⟩
    exact List.Nodup.sublist (List.Sublist.map _ (List.filter_sublist _)) hnd
  | stopReq => exact ⟨hnd, hcnt⟩
  | queueEnter => exact ⟨hnd, hcnt⟩

theorem reachable_countInv {cfg : Config} {s : SysState} (h : Reachable cfg s) :
    CountInv cfg s := by
  induction h with
  | init => exact ⟨by simp [initState], by simp [initState, processingCount]⟩
  | step _ hs ih => exact countInv_step hs ih

/-! ### Sorted-selection lemmas (C1) -/

theorem mem_insertByTs {x t : Task} {l : List Task} :
    x ∈ insertByTs t l ↔ x = t ∨ x ∈ l := by
  induction l with
  | nil => simp [insertByTs]
  | cons u us ih =>
    by_cases h : u.lastActivityTimestamp ≤ t.lastActivityTimestamp
    · simp [insertByTs, h]
    · simp [insertByTs, h, ih]
      tauto

theorem mem_sortByTsDesc {x : Task} {l : List Task} :
    x ∈ sortByTsDesc l ↔ x ∈ l := by
  induction l with
  | nil => simp [sortByTsDesc]
  | cons u us ih => simp [sortByTsDesc, mem_insertByTs, ih]

theorem sorted_insertByTs {t : Task} {l : List Task}
    (h : List.Pairwise
      (fun a b : Task => b.lastActivityTimestamp ≤ a.lastActivityTimestamp) l) :
    List.Pairwise
      (fun a b : Task => b.lastActivityTimestamp ≤ a.lastActivityTimestamp)
      (insertByTs t l) := by
  induction l with
  | nil => simp [insertByTs]
  | cons u us ih =>
    rcases List.pairwise_cons.mp h with ⟨hall, hus⟩
    by_cases hc : u.lastActivityTimestamp ≤ t.lastActivityTimestamp
    · rw [insertByTs, if_pos hc]
      refine List.pairwise_cons.mpr ⟨?_, h⟩
      intro b hb
      rcases List.mem_cons.mp hb with he | hb2
      · subst he
        exact hc
      · exact le_trans (hall b hb2) hc
    · rw [insertByTs, if_neg hc]
      refine List.pairwise_cons.mpr ⟨?_, ih hus⟩
      intro b hb
      rcases mem_insertByTs.mp hb with he | hb2
      · subst he
        omega
      · exact hall b hb2

theorem sorted_sortByTsDesc (l : List Task) :
    List.Pairwise
      (fun a b : Task => b.lastActivityTimestamp ≤ a.lastActivityTimestamp)
      (sortByTsDesc l) := by
  induction l with
  | nil => simp [sortByTsDesc]
  | cons u us ih => exact sorted_insertByTs ih

theorem pendingSorted_head_max {ts : List Task} {t : Task}
    (h : (pendingSorted ts).head? = some t) :
    t ∈ ts ∧ t.status = .pending ∧
      ∀ u ∈ ts, u.status = .pending →
        u.lastActivityTimestamp ≤ t.lastActivityTimestamp := by
  obtain ⟨l2, hps⟩ : ∃ l2, pendingSorted ts = t :: l2 := by
    cases hps : pendingSorted ts with
    | nil => rw [hps] at h; cases h
    | cons a l2 =>
      rw [hps] at h
      obtain rfl : a = t := by simpa using h
      exact ⟨l2, rfl⟩
  have h1 : t ∈ pendingSorted ts := by
    rw [hps]
    exact List.mem_cons_self _ _
  have h2 : t ∈ ts.filter fun f => decide (f.status = .pending) :=
    mem_sortByTsDesc.mp h1
  have h3 := List.mem_filter.mp h2
  refine ⟨h3.1, by simpa using h3.2, ?_⟩
  intro u hu hup
  have hu1 : u ∈ pendingSorted ts :=
    mem_sortByTsDesc.mpr (List.mem_filter.mpr ⟨hu, by simpa using hup⟩)
  rw [hps] at hu1
  rcases List.mem_cons.mp hu1 with he | hu2
  · subst he
    exact Nat.le_refl _
  · have hsorted : List.Pairwise
        (fun a b : Task => b.lastActivityTimestamp ≤ a.lastActivityTimestamp)
        (t :: l2) := by
      rw [← hps]
      exact sorted_sortByTsDesc _
    exact (List.pairwise_cons.mp hsorted).1 u hu2

/-! ### The result/error field invariant on safe runs (C6) -/

theorem worker_id_ne_of_mem_erase {ws : List Task} {snap w : Task}
    (hnd : (ws.map Task.id).Nodup) (hsnap : snap ∈ ws) (hw : w ∈ ws.erase snap) :
    w.id ≠ snap.id := by
  intro he
  have hwmem : w ∈ ws := List.mem_of_mem_erase hw
  have hws : w = snap := List.inj_on_of_nodup_map hnd hwmem hsnap he
  subst hws
  have hnd2 : ws.Nodup := List.Nodup.of_map _ hnd
  exact (List.Nodup.mem_erase_iff hnd2).mp hw |>.1 rfl

theorem storeInv_step {cfg : Config} {s : SysState} {e : Event} {s' : SysState}
    (hs : Step cfg s e s') (hsafe : SafeEvent s e) (ih : StoreInv s) :
    StoreInv s' := by
  obtain ⟨hnd, hwnd, hfo, hlink⟩ := ih
  cases hs with
  | enqueue t hid hwid hst hres hblob herr hretry =>
    refine ⟨?_, hwnd, ?_, ?_⟩
    · have hfun : ∀ x ∈ s.tasks, ¬x.id = t.id :=
        fun x hx he => hid (he ▸ List.mem_map_of_mem Task.id hx)
      simpa [List.nodup_append] using ⟨hnd, hfun⟩
    · intro t' ht'
      rcases List.mem_append.mp ht' with h1 | h1
      · exact hfo t' h1
      · simp at h1
        subst h1
        simp [fieldsOk, hst, hres, hblob, herr]
    · intro w hw t' ht' hidw
      rcases List.mem_append.mp ht' with h1 | h1
      · exact hlink w hw t' h1 hidw
      · simp at h1
        subst h1
        exact absurd (by rw [hidw]; exact List.mem_map_of_mem Task.id hw) hwid
  | start =>
    refine ⟨by simpa [startMarkPending_map_id] using hnd, hwnd, ?_, ?_⟩
    · intro t' ht'
      rcases List.mem_map.mp ht' with ⟨u, hu, he⟩
      by_cases hc : u.status = .idle ∨ u.status = .failed
      · rw [if_pos hc] at he
        subst he
        have := hfo u hu
        rcases hc with hc | hc <;> simp [fieldsOk, hc] at this ⊢ <;> simp [this]
      · rw [if_neg hc] at he
        subst he
        exact hfo u hu
    · intro w hw t' ht' hidw
      rcases List.mem_map.mp ht' with ⟨u, hu, he⟩
      by_cases hc : u.status = .idle ∨ u.status = .failed
      · have hup := hlink w hw u hu (by rw [if_pos hc] at he; subst he; exact hidw)
        rcases hc with hc | hc <;> rw [hc] at hup <;> cases hup
      · rw [if_neg hc] at he
        subst he
        exact hlink w hw u hu hidw
  | dispatch t hstop hsel hcap =>
    obtain ⟨htmem, htpend, _⟩ := pendingSorted_head_max hsel
    have htfresh : t.id ∉ s.workers.map Task.id := by
      intro hmem
      rcases List.mem_map.mp hmem with ⟨w, hwmem, hwe⟩
      have hcontra := hlink w hwmem t htmem hwe.symm
      rw [htpend] at hcontra
      cases hcontra
    refine ⟨by simpa [markProcessing_map_id] using hnd, ?_, ?_, ?_⟩
    · have hfun : ∀ x ∈ s.workers, ¬x.id = t.id :=
        fun x hx he => htfresh (he ▸ List.mem_map_of_mem Task.id hx)
      simpa [List.nodup_append] using ⟨hwnd, hfun⟩
    · intro t' ht'
      have ht2 : t' ∈ updateById t.id
          (fun f => { f with status := .processing, error := none }) s.tasks := ht'
      rcases mem_updateById ht2 with ⟨u, hu, ⟨hidu, he⟩ | ⟨_, he⟩⟩
      · have hut : u = t := List.inj_on_of_nodup_map hnd hu htmem hidu
        subst hut
        have := hfo u hu
        simp [fieldsOk, htpend] at this
        subst he
        simp [fieldsOk, this.1, this.2.1, this.2.2]
      · exact he ▸ hfo u hu
    · intro w hw t' ht' hidw
      have ht2 : t' ∈ updateById t.id
          (fun f => { f with status := .processing, error := none }) s.tasks := ht'
      rcases mem_updateById ht2 with ⟨u, hu, ⟨hidu, he⟩ | ⟨hne, he⟩⟩
      · subst he
        rfl
      · rw [he]
        rcases List.mem_append.mp hw with h1 | h1
        · exact hlink w h1 u hu (he ▸ hidw)
        · simp at h1
          subst h1
          exact absurd (he ▸ hidw) hne
  | workerSucceed snap url blob hw =>
    refine ⟨by simpa [writeBackSuccess_map_id] using hnd, ?_, ?_, ?_⟩
    · exact List.Nodup.sublist (List.Sublist.map _ (List.erase_sublist _ _)) hwnd
    · intro t' ht'
      have ht2 : t' ∈ updateById (successRecord snap url blob).id
          (fun _ => successRecord snap url blob) s.tasks := ht'
      rcases mem_updateById ht2 with ⟨u, hu, ⟨_, he⟩ | ⟨_, he⟩⟩
      · subst he
        simp [fieldsOk, successRecord]
      · exact he ▸ hfo u hu
    · intro w hw2 t' ht' hidw
      have hwne : w.id ≠ snap.id := worker_id_ne_of_mem_erase hwnd hw hw2
      have ht2 : t' ∈ updateById (successRecord snap url blob).id
          (fun _ => successRecord snap url blob) s.tasks := ht'
      rcases mem_updateById ht2 with ⟨u, hu, ⟨hidu, he⟩ | ⟨hne, he⟩⟩
      · rw [he] at hidw
        simp [successRecord] at hidw
        exact absurd hidw.symm hwne
      · exact he ▸ hlink w (List.mem_of_mem_erase hw2) u hu (he ▸ hidw)
  | workerFail snap msg hw =>
    refine ⟨by simpa [writeBackFailure_map_id] using hnd, ?_, ?_, ?_⟩
    · exact List.Nodup.sublist (List.Sublist.map _ (List.erase_sublist _ _)) hwnd
    · intro t' ht'
      have ht2 : t' ∈ updateById snap.id
          (fun f => { f with status := .failed, error := some msg }) s.tasks := ht'
      rcases mem_updateById ht2 with ⟨u, hu, ⟨hidu, he⟩ | ⟨_, he⟩⟩
      · have hup : u.status = .processing := hlink snap hw u hu hidu
        have := hfo u hu
        simp [fieldsOk, hup] at this
        subst he
        simp [fieldsOk, this.1, this.2.1]
      · exact he ▸ hfo u hu
    · intro w hw2 t' ht' hidw
      have hwne : w.id ≠ snap.id := worker_id_ne_of_mem_erase hwnd hw hw2
      have ht2 : t' ∈ updateById snap.id
          (fun f => { f with status := .failed, error := some msg }) s.tasks := ht'
      rcases mem_updateById ht2 with ⟨u, hu, ⟨hidu, he⟩ | ⟨hne, he⟩⟩
      · rw [he] at hidw
        simp at hidw
        exact absurd (hidw.symm.trans hidu) hwne
      · exact he ▸ hlink w (List.mem_of_mem_erase hw2) u hu (he ▸ hidw)
  | regenerate i now =>
    have hreg : ∀ w ∈ s.workers, w.id ≠ i := hsafe
    refine ⟨by simpa [handleRegenerate_map_id] using hnd, hwnd, ?_, ?_⟩
    · intro t' ht'
      have ht2 : t' ∈ updateById i (fun f => { f with status := .pending, resultUrl := none, resultBlob := none, error := none, isRetry := true, lastActivityTimestamp := now }) s.tasks := ht'
      rcases mem_updateById ht2 with ⟨u, hu, ⟨_, he⟩ | ⟨_, he⟩⟩
      · subst he
        simp [fieldsOk]
      · exact he ▸ hfo u hu
    · intro w hw t' ht' hidw
      have ht2 : t' ∈ updateById i (fun f => { f with status := .pending, resultUrl := none, resultBlob := none, error := none, isRetry := true, lastActivityTimestamp := now }) s.tasks := ht'
      rcases mem_updateById ht2 with ⟨u, hu, ⟨hidu, he⟩ | ⟨hne, he⟩⟩
      · rw [he] at hidw
        simp at hidw
        exact absurd (hidw.symm.trans hidu) (hreg w hw)
      · exact he ▸ hlink w hw u hu (he ▸ hidw)
  | clone src newId now hsrc hid hwid =>
    rcases hb : src.resultBlob with _ | b
    · rw [show ({ s with tasks := handleUseResultAsInput src newId now s.tasks } : SysState)
          = { s with tasks := s.tasks } from by
        rw [handleUseResultAsInput_none hb]]
      exact ⟨hnd, hwnd, hfo, hlink⟩
    · rw [show ({ s with tasks := handleUseResultAsInput src newId now s.tasks } : SysState)
          = { s with tasks := s.tasks ++ [cloneTask src newId now b] } from by
        rw [handleUseResultAsInput_some hb]]
      refine ⟨?_, hwnd, ?_, ?_⟩
      · have hfun : ∀ x ∈ s.tasks, ¬x.id = newId :=
          fun x hx he => hid (he ▸ List.mem_map_of_mem Task.id hx)
        simpa [List.nodup_append, cloneTask] using ⟨hnd, hfun⟩
      · intro t' ht'
        rcases List.mem_append.mp ht' with h1 | h1
        · exact hfo t' h1
        · simp at h1
          subst h1
          simp [fieldsOk, cloneTask]
      · intro w hw t' ht' hidw
        rcases List.mem_append.mp ht' with h1 | h1
        · exact hlink w hw t' h1 hidw
        · simp at h1
          subst h1
          have h3 : newId = w.id := by simpa [cloneTask] using hidw
          exact absurd (show newId ∈ s.workers.map Task.id from by
            rw [h3]; exact List.mem_map_of_mem Task.id hw) hwid
  | savePrompt i p =>
    refine ⟨by simpa [handleSavePrompt_map_id] using hnd, hwnd, ?_, ?_⟩
    · intro t' ht'
      have ht2 : t' ∈ updateById i
          (fun f => { f with customPrompt := some p }) s.tasks := ht'
      rcases mem_updateById ht2 with ⟨u, hu, ⟨_, he⟩ | ⟨_, he⟩⟩
      · subst he
        have := hfo u hu
        cases hst : u.status <;> simp [fieldsOk, hst] at this ⊢ <;> simpa using this
      · exact he ▸ hfo u hu
    · intro w hw t' ht' hidw
      have ht2 : t' ∈ updateById i
          (fun f => { f with customPrompt := some p }) s.tasks := ht'
      rcases mem_updateById ht2 with ⟨u, hu, ⟨_, he⟩ | ⟨_, he⟩⟩
      · subst he
        exact hlink w hw u hu (by simpa using hidw)
      · exact he ▸ hlink w hw u hu (he ▸ hidw)
  | remove i =>
    refine ⟨?_, hwnd, ?_, ?_⟩
    · exact List.Nodup.sublist (List.Sublist.map _ (List.filter_sublist _)) hnd
    · intro t' ht'
      exact hfo t' (List.mem_of_mem_filter ht')
    · intro w hw t' ht' hidw
      exact hlink w hw t' (List.mem_of_mem_filter ht') hidw
  | stopReq => exact ⟨hnd, hwnd, hfo, hlink⟩
  | queueEnter => exact ⟨hnd, hwnd, hfo, hlink⟩

theorem reachableSafe_storeInv {cfg : Config} {s : SysState}
    (h : ReachableSafe cfg s) : StoreInv s := by
  induction h with
  | init =>
    refine ⟨by simp [initState], by simp [initState], ?_, ?_⟩ <;>
      simp [initState]
  | step _ hs hsafe ih => exact storeInv_step hs hsafe ih

/-! ### Worker-loop helper lemmas -/

theorem attemptLoop_ok_status (svc : Service) (fs : List FileHandle)
    (prompt : String) (stop : Bool) (item : Task) :
    ∀ fuel attempts lastError u n,
      attemptLoop svc fs prompt stop item fuel attempts lastError = (.ok u, n) →
      u.status = .completed := by
  intro fuel
  induction fuel with
  | zero =>
    intro attempts lastError u n h
    simp [attemptLoop] at h
  | succ fuel ih =>
    intro attempts lastError u n h
    rw [attemptLoop] at h
    by_cases hstop : stop = true
    · rw [if_pos hstop] at h
      simp at h
    · rw [if_neg hstop] at h
      cases hsvc : svc (attempts + 1) fs prompt with
      | ok r =>
        rw [hsvc] at h
        obtain ⟨url, blob⟩ := r
        simp at h
        rw [← h.1]
        rfl
      | error e =>
        rw [hsvc] at h
        exact ih _ _ _ _ h

theorem attemptLoop_congr (svc svc2 : Service) (fs : List FileHandle)
    (prompt : String) (stop : Bool) (item : Task)
    (h : ∀ n, svc n fs prompt = svc2 n fs prompt) :
    ∀ fuel attempts lastError,
      attemptLoop svc fs prompt stop item fuel attempts lastError =
        attemptLoop svc2 fs prompt stop item fuel attempts lastError := by
  intro fuel
  induction fuel with
  | zero => intro attempts lastError; rfl
  | succ fuel ih =>
    intro attempts lastError
    rw [attemptLoop, attemptLoop, h (attempts + 1)]
    by_cases hstop : stop = true
    · rw [if_pos hstop, if_pos hstop]
    · rw [if_neg hstop, if_neg hstop]
      cases hsvc : svc2 (attempts + 1) fs prompt with
      | ok r => rfl
      | error e => exact ih _ _

/-- No event other than a dispatch produces a `PROCESSING` record that was
not already `PROCESSING` under the same id. -/
theorem step_processing_source {cfg : Config} {s : SysState} {e : Event}
    {s' : SysState} (hs : Step cfg s e s') (he : e ≠ .dispatch) {t' : Task}
    (ht' : t' ∈ s'.tasks) (hp : t'.status = .processing) :
    ∃ u ∈ s.tasks, u.id = t'.id ∧ u.status = .processing := by
  cases hs with
  | enqueue t hid hwid hst hres hblob herr hretry =>
    rcases List.mem_append.mp ht' with h1 | h1
    · exact ⟨t', h1, rfl, hp⟩
    · simp at h1
      subst h1
      rw [hst] at hp
      cases hp
  | start =>
    rcases List.mem_map.mp ht' with ⟨u, hu, heq⟩
    by_cases hc : u.status = .idle ∨ u.status = .failed
    · rw [if_pos hc] at heq
      rw [← heq] at hp
      cases hp
    · rw [if_neg hc] at heq
      exact ⟨u, hu, by rw [heq], by rw [heq]; exact hp⟩
  | dispatch t hstop hsel hcap => exact absurd rfl he
  | workerSucceed snap url blob hw =>
    have ht2 : t' ∈ updateById (successRecord snap url blob).id
        (fun _ => successRecord snap url blob) s.tasks := ht'
    rcases mem_updateById ht2 with ⟨u, hu, ⟨_, heq⟩ | ⟨_, heq⟩⟩
    · rw [heq] at hp
      cases hp
    · exact ⟨u, hu, by rw [heq], by rw [← heq]; exact hp⟩
  | workerFail snap msg hw =>
    have ht2 : t' ∈ updateById snap.id
        (fun f => { f with status := .failed, error := some msg }) s.tasks := ht'
    rcases mem_updateById ht2 with ⟨u, hu, ⟨_, heq⟩ | ⟨_, heq⟩⟩
    · rw [heq] at hp
      cases hp
    · exact ⟨u, hu, by rw [heq], by rw [← heq]; exact hp⟩
  | regenerate i now =>
    have ht2 : t' ∈ updateById i (fun f => { f with status := .pending, resultUrl := none, resultBlob := none, error := none, isRetry := true, lastActivityTimestamp := now }) s.tasks := ht'
    rcases mem_updateById ht2 with ⟨u, hu, ⟨_, heq⟩ | ⟨_, heq⟩⟩
    · rw [heq] at hp
      cases hp
    · exact ⟨u, hu, by rw [heq], by rw [← heq]; exact hp⟩
  | clone src newId now hsrc hid hwid =>
    rcases hb : src.resultBlob with _ | b
    · rw [show ({ s with tasks := handleUseResultAsInput src newId now s.tasks } : SysState)
          = { s with tasks := s.tasks } from by
        rw [handleUseResultAsInput_none hb]] at ht'
      exact ⟨t', ht', rfl, hp⟩
    · rw [show ({ s with tasks := handleUseResultAsInput src newId now s.tasks } : SysState)
          = { s with tasks := s.tasks ++ [cloneTask src newId now b] } from by
        rw [handleUseResultAsInput_some hb]] at ht'
      rcases List.mem_append.mp ht' with h1 | h1
      · exact ⟨t', h1, rfl, hp⟩
      · simp at h1
        subst h1
        cases hp
  | savePrompt i p =>
    have ht2 : t' ∈ updateById i
        (fun f => { f with customPrompt := some p }) s.tasks := ht'
    rcases mem_updateById ht2 with ⟨u, hu, ⟨_, heq⟩ | ⟨_, heq⟩⟩
    · exact ⟨u, hu, by rw [heq], by rw [heq] at hp; exact hp⟩
    · exact ⟨u, hu, by rw [heq], by rw [← heq]; exact hp⟩
  | remove i => exact ⟨t', List.mem_of_mem_filter ht', rfl, hp⟩
  | stopReq => exact ⟨t', ht', rfl, hp⟩
  | queueEnter => exact ⟨t', ht', rfl, hp⟩

/-! ### C1 -/

/-- C1: whenever the scheduler loop dispatches, the task it marks
`PROCESSING` and launches is a `PENDING` task of the snapshot whose
`lastActivityTimestamp` is maximal among all `PENDING` tasks; and on any
insertion order of pending tasks with timestamps [5, 1, 9] the selected
head is the task with timestamp 9. -/
theorem c1_dispatch_most_recent :
    (∀ (cfg : Config) (s s' : SysState), Step cfg s .dispatch s' →
      ∃ t, (pendingSorted s.tasks).head? = some t ∧ t ∈ s.tasks ∧
        t.status = .pending ∧
        (∀ u ∈ s.tasks, u.status = .pending →
          u.lastActivityTimestamp ≤ t.lastActivityTimestamp) ∧
        (∀ u ∈ s'.tasks, u.id = t.id → u.status = .processing) ∧
        t ∈ s'.workers) ∧
    (∀ l : List Task, l.Perm [demoT5, demoT1, demoT9] →
      (pendingSorted l).head? = some demoT9) := by
  constructor
  · intro cfg s s' hs
    cases hs with
    | dispatch t hstop hsel hcap =>
      obtain ⟨htmem, htpend, hmax⟩ := pendingSorted_head_max hsel
      refine ⟨t, hsel, htmem, htpend, hmax, ?_, ?_⟩
      · intro u hu hid
        have hu2 : u ∈ updateById t.id
            (fun f => { f with status := .processing, error := none }) s.tasks := hu
        rcases mem_updateById hu2 with ⟨v, hv, ⟨_, he⟩ | ⟨hne, he⟩⟩
        · rw [he]
        · exact absurd (he ▸ hid) hne
      · exact List.mem_append.mpr (Or.inr (List.mem_singleton.mpr rfl))
  · intro l hperm
    have hall : ∀ x ∈ l, x = demoT5 ∨ x = demoT1 ∨ x = demoT9 := by
      intro x hx
      have := hperm.subset hx
      simpa using this
    have h9 : demoT9 ∈ l := hperm.mem_iff.mpr (by simp)
    have hne : pendingSorted l ≠ [] := by
      intro h0
      have h9m : demoT9 ∈ pendingSorted l :=
        mem_sortByTsDesc.mpr (List.mem_filter.mpr ⟨h9, by decide⟩)
      rw [h0] at h9m
      cases h9m
    obtain ⟨t, ht⟩ : ∃ t, (pendingSorted l).head? = some t := by
      cases hps : pendingSorted l with
      | nil => exact absurd hps hne
      | cons a l2 => exact ⟨a, rfl⟩
    obtain ⟨htl, _, hmax⟩ := pendingSorted_head_max ht
    have h9le := hmax demoT9 h9 (by decide)
    rcases hall t htl with h | h | h
    · subst h
      exact absurd h9le (by decide)
    · subst h
      exact absurd h9le (by decide)
    · subst h
      exact ht

/-- Witness for C1 at a concrete dispatch step and a concrete reordering. -/
theorem c1_witness :
    (∃ t, (pendingSorted demoState.tasks).head? = some t ∧ t ∈ demoState.tasks ∧
      t.status = .pending ∧
      (∀ u ∈ demoState.tasks, u.status = .pending →
        u.lastActivityTimestamp ≤ t.lastActivityTimestamp)) ∧
    (pendingSorted [demoT1, demoT9, demoT5]).head? = some demoT9 := by
  constructor
  · obtain ⟨t, h1, h2, h3, h4, _, _⟩ := c1_dispatch_most_recent.1 demoCfg demoState _
      (Step.dispatch demoState demoT9 rfl (by decide) (by decide))
    exact ⟨t, h1, h2, h3, h4⟩
  · exact c1_dispatch_most_recent.2 [demoT1, demoT9, demoT5] (by decide)

/-! ### C2 -/

/-- C2: in every reachable state the number of `PROCESSING` records is at
most the effective ceiling (1 when concurrency is disabled, else the
configured limit), and a dispatch step fires only when the count is
strictly below the ceiling. -/
theorem c2_concurrency_ceiling :
    (∀ (cfg : Config) (s : SysState), Reachable cfg s →
      processingCount s.tasks ≤ ceiling cfg) ∧
    (∀ (cfg : Config) (s : SysState), Reachable cfg s →
      cfg.enableConcurrency = false → processingCount s.tasks ≤ 1) ∧
    (∀ (cfg : Config) (s s' : SysState), Step cfg s .dispatch s' →
      processingCount s.tasks < ceiling cfg) := by
  refine ⟨fun cfg s h => (reachable_countInv h).2, fun cfg s h hc => ?_,
    fun cfg s s' hs => ?_⟩
  · have h2 := (reachable_countInv h).2
    simpa [ceiling, hc] using h2
  · cases hs with
    | dispatch t hstop hsel hcap => exact hcap

/-- Witness for C2: a run with concurrency disabled that enqueues, starts
and dispatches one task reaches a state with at most one worker. -/
theorem c2_witness :
    processingCount (markProcessing demoIdle.id (startMarkPending [demoIdle])) ≤ 1 := by
  refine c2_concurrency_ceiling.2.1 demoCfgSerial
    { tasks := markProcessing demoIdle.id (startMarkPending [demoIdle]),
      workers := [demoIdleP], stopFlag := false } ?_ rfl
  exact Reachable.step (Reachable.step (Reachable.step Reachable.init
    (Step.enqueue initState demoIdle (by decide) (by decide) rfl rfl rfl rfl rfl))
    (Step.start _)) (Step.dispatch _ demoIdleP rfl (by decide) (by decide))

/-! ### C3 helper computations -/

theorem attemptLoop_succ_ok (svc : Service) (fs : List FileHandle) (p : String)
    (item : Task) (fuel attempts : Nat) (le : Option String) (url blob : String)
    (h : svc (attempts + 1) fs p = .ok (url, blob)) :
    attemptLoop svc fs p false item (fuel + 1) attempts le
      = (.ok (successRecord item url blob), attempts + 1) := by
  rw [attemptLoop, if_neg (by decide), h]

theorem attemptLoop_succ_err (svc : Service) (fs : List FileHandle) (p : String)
    (item : Task) (fuel attempts : Nat) (le : Option String) (e : String)
    (h : svc (attempts + 1) fs p = .error e) :
    attemptLoop svc fs p false item (fuel + 1) attempts le
      = attemptLoop svc fs p false item fuel (attempts + 1) (some e) := by
  rw [attemptLoop, if_neg (by decide), h]

theorem attemptLoop_three (svc : Service) (fs : List FileHandle) (p : String)
    (item : Task) (e1 e2 url blob : String) (attempts : Nat)
    (h1 : svc (attempts + 1) fs p = .error e1)
    (h2 : svc (attempts + 2) fs p = .error e2)
    (h3 : svc (attempts + 3) fs p = .ok (url, blob)) :
    attemptLoop svc fs p false item 3 attempts none
      = (.ok (successRecord item url blob), attempts + 3) := by
  have s1 : attemptLoop svc fs p false item 3 attempts none
      = attemptLoop svc fs p false item 2 (attempts + 1) (some e1) :=
    attemptLoop_succ_err svc fs p item 2 attempts none e1 h1
  have s2 : attemptLoop svc fs p false item 2 (attempts + 1) (some e1)
      = attemptLoop svc fs p false item 1 (attempts + 2) (some e2) :=
    attemptLoop_succ_err svc fs p item 1 (attempts + 1) (some e1) e2 h2
  have s3 : attemptLoop svc fs p false item 1 (attempts + 2) (some e2)
      = (.ok (successRecord item url blob), attempts + 3) :=
    attemptLoop_succ_ok svc fs p item 0 (attempts + 2) (some e2) url blob h3
  exact s1.trans (s2.trans s3)

theorem attemptLoop_one_fail (svc : Service) (fs : List FileHandle) (p : String)
    (item : Task) (e1 : String) (attempts : Nat)
    (h1 : svc (attempts + 1) fs p = .error e1) :
    attemptLoop svc fs p false item 1 attempts none = (.error e1, attempts + 1) := by
  have s1 : attemptLoop svc fs p false item 1 attempts none
      = attemptLoop svc fs p false item 0 (attempts + 1) (some e1) :=
    attemptLoop_succ_err svc fs p item 0 attempts none e1 h1
  have s2 : attemptLoop svc fs p false item 0 (attempts + 1) (some e1)
      = (.error e1, attempts + 1) := rfl
  exact s1.trans s2

/-! ### C3 -/

/-- C3: with a present credential and no stop request, a Transform Service
that fails on the first two invocations and succeeds on the third yields
`COMPLETED` after exactly 3 attempts when auto-retry is enabled, and
`FAILED` after exactly 1 attempt carrying the first (and only) error when
auto-retry is disabled; the store write-backs record the corresponding
terminal states. -/
theorem c3_retry_budget (item : Task) (k tmpl : String) (svc : Service)
    (e1 e2 url blob : String)
    (hk : k ≠ "") (he1 : e1 ≠ "")
    (h1 : ∀ fs p, svc 1 fs p = .error e1)
    (h2 : ∀ fs p, svc 2 fs p = .error e2)
    (h3 : ∀ fs p, svc 3 fs p = .ok (url, blob)) :
    processSingleFile item (some k) true tmpl false svc
      = (.ok (successRecord item url blob), 3) ∧
    processSingleFile item (some k) false tmpl false svc = (.error e1, 1) ∧
    processFileBackground item (some k) true tmpl false svc [item]
      = [successRecord item url blob] ∧
    processFileBackground item (some k) false tmpl false svc [item]
      = [{ item with status := .failed, error := some e1 }] := by
  have hkey : ¬((some k : Option String).getD "" = "") := hk
  have hra : processSingleFile item (some k) true tmpl false svc
      = (.ok (successRecord item url blob), 3) := by
    rw [processSingleFile, if_neg hkey]
    exact attemptLoop_three svc (filesToProcess item) (finalPromptOf tmpl item)
      item e1 e2 url blob 0 (h1 _ _) (h2 _ _) (h3 _ _)
  have hrb : processSingleFile item (some k) false tmpl false svc
      = (.error e1, 1) := by
    rw [processSingleFile, if_neg hkey]
    exact attemptLoop_one_fail svc (filesToProcess item) (finalPromptOf tmpl item)
      item e1 0 (h1 _ _)
  refine ⟨hra, hrb, ?_, ?_⟩
  · rw [processFileBackground, hra]
    simp [writeBackSuccess, updateById, successRecord]
  · rw [processFileBackground, hrb]
    simp [writeBackFailure, updateById, he1]

/-- Witness for C3 with a concrete task and a concrete flaky service. -/
theorem c3_witness :
    processSingleFile demoIdle (some "key") true "t" false
        (fun n _ _ => if n = 1 then .error "E1" else
          if n = 2 then .error "E2" else .ok ("u", "b"))
      = (.ok (successRecord demoIdle "u" "b"), 3) ∧
    processSingleFile demoIdle (some "key") false "t" false
        (fun n _ _ => if n = 1 then .error "E1" else
          if n = 2 then .error "E2" else .ok ("u", "b"))
      = (.error "E1", 1) := by
  have h := c3_retry_budget demoIdle "key" "t"
    (fun n _ _ => if n = 1 then .error "E1" else
      if n = 2 then .error "E2" else .ok ("u", "b"))
    "E1" "E2" "u" "b" (by decide) (by decide)
    (fun _ _ => rfl) (fun _ _ => rfl) (fun _ _ => rfl)
  exact ⟨h.1, h.2.1⟩

/-! ### C4 -/

/-- C4: regenerate mutates the record in place: the id list is unchanged
(no record is created or destroyed), the targeted record becomes `PENDING`
with result and error cleared, the retry flag set and the timestamp bumped
to the current time, every other record is untouched, and the subsequent
successful write-back also preserves the id list. -/
theorem c4_regenerate_in_place (i now : Nat) (ts : List Task) :
    (handleRegenerate i now ts).length = ts.length ∧
    (handleRegenerate i now ts).map Task.id = ts.map Task.id ∧
    (∀ t ∈ ts, t.id = i →
      ({ t with status := .pending, resultUrl := none, resultBlob := none, error := none, isRetry := true, lastActivityTimestamp := now } : Task)
        ∈ handleRegenerate i now ts) ∧
    (∀ t ∈ ts, t.id ≠ i → t ∈ handleRegenerate i now ts) ∧
    (∀ (u : Task) (ts2 : List Task),
      (writeBackSuccess u ts2).map Task.id = ts2.map Task.id) := by
  refine ⟨?_, handleRegenerate_map_id i now ts, ?_, ?_,
    fun u ts2 => writeBackSuccess_map_id u ts2⟩
  · exact List.length_map ts _
  · intro t ht hid
    exact mem_updateById_of_eq ht hid
  · intro t ht hid
    exact mem_updateById_of_ne ht hid

/-- Witness for C4 on a one-element store holding a completed task. -/
theorem c4_witness :
    ({ demoDone with status := .pending, resultUrl := none, resultBlob := none, error := none, isRetry := true, lastActivityTimestamp := 7 } : Task)
      ∈ handleRegenerate demoDone.id 7 [demoDone] ∧
    (handleRegenerate demoDone.id 7 [demoDone]).map Task.id
      = [demoDone].map Task.id := by
  have h := c4_regenerate_in_place demoDone.id 7 [demoDone]
  exact ⟨h.2.2.1 demoDone (List.mem_singleton.mpr rfl) rfl, h.2.1⟩

/-! ### C5 -/

/-- C5: in a reachable state with the stop flag set, no step turns a
`PENDING` record into a `PROCESSING` record (dispatch requires the flag
clear, and no other event creates a `PROCESSING` record); a task with a
worker still in flight can always resolve to `COMPLETED` or `FAILED`
regardless of the flag; and the stop request itself changes no task
record and no worker. -/
theorem c5_stop_semantics :
    (∀ (cfg : Config) (s : SysState) (e : Event) (s' : SysState),
      Reachable cfg s → Step cfg s e s' → s.stopFlag = true →
      ∀ t ∈ s.tasks, t.status = .pending →
        ∀ t' ∈ s'.tasks, t'.id = t.id → t'.status ≠ .processing) ∧
    (∀ (cfg : Config) (s : SysState) (snap : Task), snap ∈ s.workers →
      (∀ url blob, ∃ s', Step cfg s (.workerSucceed snap.id url blob) s' ∧
        ∀ t' ∈ s'.tasks, t'.id = snap.id → t'.status = .completed) ∧
      (∀ msg, ∃ s', Step cfg s (.workerFail snap.id msg) s' ∧
        ∀ t' ∈ s'.tasks, t'.id = snap.id → t'.status = .failed)) ∧
    (∀ (cfg : Config) (s s' : SysState), Step cfg s .stopReq s' →
      s'.tasks = s.tasks ∧ s'.workers = s.workers) := by
  refine ⟨?_, ?_, ?_⟩
  · intro cfg s e s' hreach hs hstop t ht htp t' ht' hid hp
    by_cases hdisp : e = Event.dispatch
    · subst hdisp
      cases hs with
      | dispatch t2 hstop2 hsel hcap =>
        rw [hstop] at hstop2
        cases hstop2
    · obtain ⟨u, hu, huid, hupr⟩ := step_processing_source hs hdisp ht' hp
      have hnd := (reachable_countInv hreach).1
      have hut : u = t := List.inj_on_of_nodup_map hnd hu ht (huid.trans hid)
      rw [hut, htp] at hupr
      cases hupr
  · intro cfg s snap hw
    constructor
    · intro url blob
      refine ⟨_, Step.workerSucceed s snap url blob hw, ?_⟩
      intro t' ht' hid
      have ht2 : t' ∈ updateById (successRecord snap url blob).id
          (fun _ => successRecord snap url blob) s.tasks := ht'
      rcases mem_updateById ht2 with ⟨u, hu, ⟨_, he⟩ | ⟨hne, he⟩⟩
      · rw [he]
        rfl
      · exact absurd (by simpa [successRecord] using he ▸ hid) hne
    · intro msg
      refine ⟨_, Step.workerFail s snap msg hw, ?_⟩
      intro t' ht' hid
      have ht2 : t' ∈ updateById snap.id
          (fun f => { f with status := .failed, error := some msg }) s.tasks := ht'
      rcases mem_updateById ht2 with ⟨u, hu, ⟨_, he⟩ | ⟨hne, he⟩⟩
      · rw [he]
      · exact absurd (he ▸ hid) hne
  · intro cfg s s' hs
    cases hs with
    | stopReq => exact ⟨rfl, rfl⟩

/-- Witness for C5: a stopped run where saving a prompt does not start the
pending task, and an in-flight worker of a stopped run can still fail. -/
theorem c5_witness :
    (∀ t' ∈ handleSavePrompt demoIdle.id "p" [demoIdleP],
      t'.id = demoIdleP.id → t'.status ≠ .processing) ∧
    (∃ s', Step demoCfgSerial
        { tasks := [{ demoIdle with status := .processing }],
          workers := [demoIdleP], stopFlag := true }
        (.workerFail demoIdleP.id "remote broke") s' ∧
      ∀ t' ∈ s'.tasks, t'.id = demoIdleP.id → t'.status = .failed) := by
  constructor
  · have hreach : Reachable demoCfgSerial
        { tasks := [demoIdleP], workers := [], stopFlag := true } :=
      Reachable.step (Reachable.step (Reachable.step Reachable.init
        (Step.enqueue initState demoIdle (by decide) (by decide) rfl rfl rfl rfl rfl))
        (Step.start _)) (Step.stopReq _)
    exact c5_stop_semantics.1 demoCfgSerial
      { tasks := [demoIdleP], workers := [], stopFlag := true }
      (.savePrompt demoIdle.id "p") _ hreach
      (Step.savePrompt _ demoIdle.id "p") rfl demoIdleP
      (List.mem_singleton.mpr rfl) rfl
  · exact (c5_stop_semantics.2.1 demoCfgSerial
      { tasks := [{ demoIdle with status := .processing }],
        workers := [demoIdleP], stopFlag := true }
      demoIdleP (List.mem_singleton.mpr rfl)).2 "remote broke"

/-! ### C6 -/

/-- C6 (amended): on every run that never regenerates a task while its
worker is still in flight, each reachable store state satisfies the field
discipline: `COMPLETED` records hold a result (both forms) and no error,
`FAILED` records hold an error and no result, and records in any other
status hold neither. -/
theorem c6_field_invariant_safe :
    ∀ (cfg : Config) (s : SysState), ReachableSafe cfg s → ∀ t ∈ s.tasks,
      (t.status = .completed →
        t.resultUrl.isSome ∧ t.resultBlob.isSome ∧ t.error = none) ∧
      (t.status = .failed →
        t.error.isSome ∧ t.resultUrl = none ∧ t.resultBlob = none) ∧
      (t.status ≠ .completed → t.status ≠ .failed →
        t.resultUrl = none ∧ t.resultBlob = none ∧ t.error = none) := by
  intro cfg s h t ht
  have hf := (reachableSafe_storeInv h).2.2.1 t ht
  refine ⟨fun hc => ?_, fun hc => ?_, fun hnc hnf => ?_⟩
  · simpa [fieldsOk, hc] using hf
  · simpa [fieldsOk, hc] using hf
  · cases hst : t.status with
    | completed => exact absurd hst hnc
    | failed => exact absurd hst hnf
    | idle => simpa [fieldsOk, hst] using hf
    | pending => simpa [fieldsOk, hst] using hf
    | processing => simpa [fieldsOk, hst] using hf

/-- Witness for C6 on a concrete safe run. -/
theorem c6_witness :
    (demoIdle.status = .completed →
      demoIdle.resultUrl.isSome ∧ demoIdle.resultBlob.isSome ∧ demoIdle.error = none) ∧
    (demoIdle.status = .failed →
      demoIdle.error.isSome ∧ demoIdle.resultUrl = none ∧ demoIdle.resultBlob = none) ∧
    (demoIdle.status ≠ .completed → demoIdle.status ≠ .failed →
      demoIdle.resultUrl = none ∧ demoIdle.resultBlob = none ∧ demoIdle.error = none) :=
  c6_field_invariant_safe demoCfg
    { tasks := [demoIdle], workers := [], stopFlag := false }
    (ReachableSafe.step ReachableSafe.init
      (Step.enqueue initState demoIdle (by decide) (by decide) rfl rfl rfl rfl rfl)
      trivial)
    demoIdle (List.mem_singleton.mpr rfl)

/-- Counterexample for C6 as stated: a reachable store state (regenerate
pressed while the first worker was in flight, second dispatch, stale
success write-back, then the failure write-back, which does not clear the
result fields) contains a `FAILED` record that still holds a result. -/
theorem c6_counterexample :
    Reachable demoCfg { tasks := [ceFinal], workers := [], stopFlag := false } ∧
    ceFinal ∈ [ceFinal] ∧ ceFinal.status = .failed ∧
    ceFinal.resultUrl = some "u" ∧ ceFinal.resultBlob = some "b" ∧
    ceFinal.error = some "boom" := by
  refine ⟨?_, List.mem_singleton.mpr rfl, rfl, rfl, rfl, rfl⟩
  exact Reachable.step (Reachable.step (Reachable.step (Reachable.step
    (Reachable.step (Reachable.step (Reachable.step Reachable.init
      (Step.enqueue initState
        { id := 0, file := { name := "a.png", bytes := "ab" },
          secondaryFile := none, status := .idle, resultUrl := none,
          resultBlob := none, error := none, customPrompt := none,
          isRetry := false, lastActivityTimestamp := 1 }
        (by decide) (by decide) rfl rfl rfl rfl rfl))
      (Step.start _))
      (Step.dispatch _
        { id := 0, file := { name := "a.png", bytes := "ab" },
          secondaryFile := none, status := .pending, resultUrl := none,
          resultBlob := none, error := none, customPrompt := none,
          isRetry := false, lastActivityTimestamp := 1 }
        rfl (by decide) (by decide)))
      (Step.regenerate _ 0 5))
      (Step.dispatch _ ceRegen rfl (by decide) (by decide)))
      (Step.workerSucceed _
        { id := 0, file := { name := "a.png", bytes := "ab" },
          secondaryFile := none, status := .pending, resultUrl := none,
          resultBlob := none, error := none, customPrompt := none,
          isRetry := false, lastActivityTimestamp := 1 }
        "u" "b" (by decide)))
    (Step.workerFail _ ceRegen "boom" (by decide))

/-! ### C7 -/

/-- C7: clone-from-result on a task holding a result never mutates any
existing record (the source included), appends exactly one new `IDLE` task
whose id is fresh and hence distinct from the source's, whose primary
input bytes are the result bytes of the source and which inherits the
prompt override of the source; no record becomes `PENDING`, and the clone event touches
neither the in-flight workers nor the stop flag (the scheduler is not
invoked); a source without a result blob leaves the store unchanged. -/
theorem c7_clone_from_result (item : Task) (b : String) (newId now : Nat)
    (ts : List Task) (hb : item.resultBlob = some b)
    (hfresh : newId ∉ ts.map Task.id) (hmem : item ∈ ts) :
    handleUseResultAsInput item newId now ts = ts ++ [cloneTask item newId now b] ∧
    (∀ t ∈ ts, t ∈ handleUseResultAsInput item newId now ts) ∧
    item ∈ handleUseResultAsInput item newId now ts ∧
    (cloneTask item newId now b).id ≠ item.id ∧
    (cloneTask item newId now b).status = .idle ∧
    (cloneTask item newId now b).file.bytes = b ∧
    (cloneTask item newId now b).customPrompt = item.customPrompt ∧
    (∀ t ∈ handleUseResultAsInput item newId now ts,
      t.status = .pending → t ∈ ts) ∧
    (∀ (cfg : Config) (s s' : SysState), Step cfg s (.clone item newId now) s' →
      s'.workers = s.workers ∧ s'.stopFlag = s.stopFlag) ∧
    (∀ (item2 : Task) (ts2 : List Task), item2.resultBlob = none →
      handleUseResultAsInput item2 newId now ts2 = ts2) := by
  have heq := handleUseResultAsInput_some hb newId now ts
  refine ⟨heq, ?_, ?_, ?_, rfl, rfl, rfl, ?_, ?_, ?_⟩
  · intro t ht
    rw [heq]
    exact List.mem_append.mpr (Or.inl ht)
  · rw [heq]
    exact List.mem_append.mpr (Or.inl hmem)
  · intro he
    have h2 : newId = item.id := he
    exact hfresh (by rw [h2]; exact List.mem_map_of_mem Task.id hmem)
  · intro t ht hp
    rw [heq] at ht
    rcases List.mem_append.mp ht with h1 | h1
    · exact h1
    · simp at h1
      rw [h1] at hp
      cases hp
  · intro cfg s s' hs
    cases hs with
    | clone => exact ⟨rfl, rfl⟩
  · intro item2 ts2 h2
    exact handleUseResultAsInput_none h2 newId now ts2

/-- Witness for C7 on a completed demo task. -/
theorem c7_witness :
    handleUseResultAsInput demoDone 9 11 [demoDone]
      = [demoDone] ++ [cloneTask demoDone 9 11 "rb"] ∧
    (cloneTask demoDone 9 11 "rb").id ≠ demoDone.id ∧
    (cloneTask demoDone 9 11 "rb").status = .idle ∧
    (cloneTask demoDone 9 11 "rb").file.bytes = "rb" ∧
    (cloneTask demoDone 9 11 "rb").customPrompt = demoDone.customPrompt := by
  have h := c7_clone_from_result demoDone "rb" 9 11 [demoDone] rfl (by decide)
    (List.mem_singleton.mpr rfl)
  exact ⟨h.1, h.2.2.2.1, h.2.2.2.2.1, h.2.2.2.2.2.1, h.2.2.2.2.2.2.1⟩

/-! ### C8 -/

/-- C8: after removing a task the store no longer contains its id, and the
eventual terminal write-back of the in-flight worker (success or failure) for
that id is a no-op on the stores, leaving every other record unchanged;
the removal itself leaves the in-flight worker list intact, so the
write-back path still runs (and is total by construction). -/
theorem c8_stale_writeback (u : Task) (msg : String) (ts : List Task) :
    (∀ t ∈ handleRemove u.id ts, t.id ≠ u.id) ∧
    writeBackSuccess u (handleRemove u.id ts) = handleRemove u.id ts ∧
    writeBackFailure u.id msg (handleRemove u.id ts) = handleRemove u.id ts ∧
    (∀ (cfg : Config) (s s' : SysState) (i : Nat), Step cfg s (.remove i) s' →
      s'.workers = s.workers ∧ ∀ t ∈ s'.tasks, t.id ≠ i) := by
  have habs : ∀ t ∈ handleRemove u.id ts, t.id ≠ u.id := by
    intro t ht
    have := (List.mem_filter.mp ht).2
    simpa using this
  refine ⟨habs, updateById_noop habs, updateById_noop habs, ?_⟩
  intro cfg s s' i hs
  cases hs with
  | remove =>
    refine ⟨rfl, ?_⟩
    intro t ht
    have := (List.mem_filter.mp ht).2
    simpa using this

/-- Witness for C8: removing the only task makes both write-backs no-ops. -/
theorem c8_witness :
    (∀ t ∈ handleRemove demoDone.id [demoDone], t.id ≠ demoDone.id) ∧
    writeBackSuccess demoDone (handleRemove demoDone.id [demoDone])
      = handleRemove demoDone.id [demoDone] ∧
    writeBackFailure demoDone.id "late" (handleRemove demoDone.id [demoDone])
      = handleRemove demoDone.id [demoDone] ∧
    ({ tasks := handleRemove demoDone.id [demoDone], workers := [demoIdleP],
        stopFlag := false } : SysState).workers = [demoIdleP] := by
  have h := c8_stale_writeback demoDone "late" [demoDone]
  refine ⟨h.1, h.2.1, h.2.2.1, ?_⟩
  exact (h.2.2.2 demoCfg
    { tasks := [demoDone], workers := [demoIdleP], stopFlag := false }
    { tasks := handleRemove demoDone.id [demoDone], workers := [demoIdleP],
      stopFlag := false }
    demoDone.id (Step.remove _ demoDone.id)).1

/-! ### C9 -/

theorem processSingleFile_ok_status {item : Task} {apiKey : Option String}
    {autoRetry : Bool} {tmpl : String} {stop : Bool} {svc : Service}
    {u : Task} {n : Nat}
    (h : processSingleFile item apiKey autoRetry tmpl stop svc = (.ok u, n)) :
    u.status = .completed := by
  rw [processSingleFile] at h
  by_cases hk : apiKey.getD "" = ""
  · rw [if_pos hk] at h
    simp at h
  · rw [if_neg hk] at h
    exact attemptLoop_ok_status _ _ _ _ _ _ _ _ _ _ h

/-- C9: the worker wrapper is total and never propagates a failure past
itself: every run ends as either a success write-back of a `COMPLETED`
record or a failure write-back of a non-empty error message under the
id of the task; a missing credential yields the `"API Key is missing"` failure
with zero service invocations, identically under both retry settings, and
its write-back replaces the record with status `FAILED` plus that error
message. -/
theorem c9_failure_semantics :
    (∀ (item : Task) (apiKey : Option String) (autoRetry : Bool)
        (tmpl : String) (stop : Bool) (svc : Service) (ts : List Task),
      (∃ u, processFileBackground item apiKey autoRetry tmpl stop svc ts
          = writeBackSuccess u ts ∧ u.status = .completed) ∨
      (∃ m, processFileBackground item apiKey autoRetry tmpl stop svc ts
          = writeBackFailure item.id m ts ∧ m ≠ "")) ∧
    (∀ (item : Task) (autoRetry : Bool) (tmpl : String) (stop : Bool)
        (svc : Service),
      processSingleFile item none autoRetry tmpl stop svc
        = (.error "API Key is missing", 0)) ∧
    (∀ (item : Task) (tmpl : String) (stop : Bool) (svc : Service),
      processSingleFile item none true tmpl stop svc
        = processSingleFile item none false tmpl stop svc) ∧
    (∀ (item : Task) (autoRetry : Bool) (tmpl : String) (stop : Bool)
        (svc : Service),
      processFileBackground item none autoRetry tmpl stop svc [item]
        = [{ item with status := .failed, error := some "API Key is missing" }]) := by
  refine ⟨?_, fun item autoRetry tmpl stop svc => rfl,
    fun item tmpl stop svc => rfl, ?_⟩
  · intro item apiKey autoRetry tmpl stop svc ts
    rcases hres : processSingleFile item apiKey autoRetry tmpl stop svc with ⟨res, n⟩
    cases res with
    | ok u =>
      left
      refine ⟨u, ?_, processSingleFile_ok_status hres⟩
      rw [processFileBackground, hres]
    | error m =>
      right
      refine ⟨if m = "" then "Unknown error" else m, ?_, ?_⟩
      · rw [processFileBackground, hres]
      · by_cases hm : m = "" <;> simp [hm]
  · intro item autoRetry tmpl stop svc
    rw [processFileBackground]
    rw [show (processSingleFile item none autoRetry tmpl stop svc).1
        = .error "API Key is missing" from rfl]
    simp [writeBackFailure, updateById]

/-! ### C10 helper lemmas -/

theorem getSubstitution_no_dollar (matched before after : List Char) :
    ∀ rep : List Char, (∀ c ∈ rep, c ≠ '$') →
      getSubstitution matched before after rep = rep := by
  intro rep
  induction rep with
  | nil => intro h; rfl
  | cons c rest ih =>
    intro h
    have hc : c ≠ '$' := h c (List.mem_cons_self c rest)
    cases rest with
    | nil => rfl
    | cons d rest2 =>
      rw [getSubstitution, if_neg hc]
      congr 1
      exact ih fun x hx => h x (List.mem_cons_of_mem c hx)

theorem replaceFirstAux_no_dollar (pat rep : List Char)
    (h : ∀ c ∈ rep, c ≠ '$') :
    ∀ (l revBefore : List Char),
      replaceFirstAux pat rep revBefore l
        = revBefore.reverse ++ literalReplaceFirstAux pat rep l := by
  intro l
  induction l with
  | nil =>
    intro revBefore
    simp [replaceFirstAux, literalReplaceFirstAux]
  | cons c cs ih =>
    intro revBefore
    by_cases hp : pat.isPrefixOf (c :: cs) = true
    · rw [replaceFirstAux, if_pos hp, literalReplaceFirstAux, if_pos hp,
          getSubstitution_no_dollar _ _ _ _ h]
      simp
    · rw [replaceFirstAux, if_neg hp, literalReplaceFirstAux, if_neg hp, ih]
      simp

theorem replaceFirst_no_dollar (s pat rep : String)
    (h : ∀ c ∈ rep.data, c ≠ '$') :
    replaceFirst s pat rep = literalReplaceFirst s pat rep := by
  rw [replaceFirst, literalReplaceFirst]
  by_cases hp : pat.data.isEmpty = true
  · rw [if_pos hp, if_pos hp, getSubstitution_no_dollar _ _ _ _ h]
  · rw [if_neg hp, if_neg hp]
    have h2 := replaceFirstAux_no_dollar pat.data rep.data h s.data []
    simp at h2
    rw [h2]

/-! ### C10 -/

/-- C10 (amended): the effective prompt handed to the Transform Service is
the own non-empty prompt override of the task when one is set; otherwise
(no override, or the JS-falsy empty override) it is the global template
with the first `{filename}` placeholder replaced by the extension-stripped
file name of the task under the ECMAScript GetSubstitution rules that
`String.prototype.replace` applies to its replacement string — which
coincides with plainly substituting the stripped name exactly when that
name contains no dollar character.  The outcome of the worker depends on
the service oracle only through its responses at that effective prompt,
and the string helpers evaluate as described on concrete names, including
a name carrying a dollar-ampersand sequence. -/
theorem c10_effective_prompt :
    (∀ (tmpl : String) (item : Task) (p : String),
      item.customPrompt = some p → p ≠ "" → finalPromptOf tmpl item = p) ∧
    (∀ (tmpl : String) (item : Task), item.customPrompt = none →
      finalPromptOf tmpl item
        = replaceFirst tmpl "{filename}" (stripExtension item.file.name)) ∧
    (∀ (tmpl : String) (item : Task), item.customPrompt = some "" →
      finalPromptOf tmpl item
        = replaceFirst tmpl "{filename}" (stripExtension item.file.name)) ∧
    (∀ (tmpl : String) (item : Task),
      (∀ c ∈ (stripExtension item.file.name).data, c ≠ '$') →
      finalPromptOf tmpl item = specEffectivePrompt tmpl item) ∧
    (∀ (item : Task) (k : String) (autoRetry : Bool) (tmpl : String)
        (stop : Bool) (svc svc2 : Service), k ≠ "" →
      (∀ n, svc n (filesToProcess item) (finalPromptOf tmpl item)
          = svc2 n (filesToProcess item) (finalPromptOf tmpl item)) →
      processSingleFile item (some k) autoRetry tmpl stop svc
        = processSingleFile item (some k) autoRetry tmpl stop svc2) ∧
    stripExtension "cat.jpg" = "cat" ∧
    stripExtension "archive.tar.gz" = "archive.tar" ∧
    stripExtension "noext" = "noext" ∧
    replaceFirst "translate {filename} now" "{filename}" "cat"
      = "translate cat now" ∧
    replaceFirst "T {filename} E" "{filename}" "a$&b"
      = "T a{filename}b E" := by
  refine ⟨?_, ?_, ?_, ?_, ?_, by decide, by decide, by decide, by decide, by decide⟩
  · intro tmpl item p hp hne
    simp [finalPromptOf, hp, hne]
  · intro tmpl item hp
    simp [finalPromptOf, hp]
  · intro tmpl item hp
    simp [finalPromptOf, hp]
  · intro tmpl item hnd
    cases hcp : item.customPrompt with
    | none =>
      simp only [finalPromptOf, specEffectivePrompt, hcp]
      exact replaceFirst_no_dollar _ _ _ hnd
    | some p =>
      by_cases hp : p = ""
      · subst hp
        simp [finalPromptOf, specEffectivePrompt, hcp]
        exact replaceFirst_no_dollar _ _ _ hnd
      · simp only [finalPromptOf, specEffectivePrompt, hcp, if_neg hp]
  · intro item k autoRetry tmpl stop svc svc2 hk h
    have hk2 : ¬((some k : Option String).getD "" = "") := hk
    rw [processSingleFile, processSingleFile, if_neg hk2, if_neg hk2]
    exact attemptLoop_congr svc svc2 (filesToProcess item)
      (finalPromptOf tmpl item) stop item h _ _ _

/-- Counterexample for C10 as stated: for the file name containing the
dollar-ampersand sequence, the program does not substitute the stripped
name into the template — the replace call re-inserts the matched
`{filename}` text in its place — so the effective prompt differs from the
plain substitution the claim describes. -/
theorem c10_counterexample :
    dollarTask.customPrompt = none ∧
    stripExtension dollarTask.file.name = "a$&b" ∧
    finalPromptOf "T {filename} E" dollarTask = "T a{filename}b E" ∧
    specEffectivePrompt "T {filename} E" dollarTask = "T a$&b E" ∧
    finalPromptOf "T {filename} E" dollarTask
      ≠ specEffectivePrompt "T {filename} E" dollarTask := by
  exact ⟨rfl, by decide, by decide, by decide, by decide⟩

/-- Witness for C10 with a concrete override, a concrete dollar-free file
name agreeing with the plain-substitution reading, and a concrete pair of
oracles agreeing at the effective prompt. -/
theorem c10_witness :
    finalPromptOf "hello {filename}" demoDone = "override" ∧
    finalPromptOf "hello {filename}" demoIdle = "hello b" ∧
    finalPromptOf "hello {filename}" demoIdle
      = specEffectivePrompt "hello {filename}" demoIdle ∧
    processSingleFile demoIdle (some "key") false "hello {filename}" false
        (fun _ _ p => .error p)
      = processSingleFile demoIdle (some "key") false "hello {filename}" false
        (fun _ _ p => if p = "hello b" then .error p else .ok ("x", "y")) := by
  refine ⟨?_, ?_, ?_, ?_⟩
  · exact c10_effective_prompt.1 "hello {filename}" demoDone "override" rfl (by decide)
  · exact (c10_effective_prompt.2.1 "hello {filename}" demoIdle rfl).trans (by decide)
  · exact c10_effective_prompt.2.2.2.1 "hello {filename}" demoIdle (by decide)
  · exact c10_effective_prompt.2.2.2.2.1 demoIdle "key" false "hello {filename}" false
      (fun _ _ p => .error p)
      (fun _ _ p => if p = "hello b" then .error p else .ok ("x", "y"))
      (by decide) (fun _ => rfl)
